import Mathlib

/-!
Shallow embedding of the Cap desktop recorder's encoder module
(`apps/desktop/src-tauri/src/encoder.rs`) and proofs about its
frame-pacing, timestamping, adapter and drain-loop behaviour.

Modelling conventions:
* Rust `f64` arithmetic on frame rates and timestamp deltas is modelled with
  exact rationals (`ℚ`); `f64::round` (round half away from zero) is
  `rustRound`.
* `u64` capture timestamps are `ℕ`; the (release-mode) wrapping subtraction
  `(timestamp - start_time) as i64` is exact `ℤ` subtraction.
* The ffmpeg codec is external, so `send_frame` results are an oracle
  `ok : ℕ → Bool` indexed by a per-session send counter, and each call to
  `receive_and_process_packets` is recorded as an abstract `drained` event.
* Frames are a payload plus an optional PTS, mirroring
  `ffmpeg::util::frame::Video` as the encoder uses it.
-/

namespace Cap

/-- Rust `f64::round`: round half away from zero, modelled on `ℚ`. -/
def rustRound (q : ℚ) : ℤ :=
  if 0 ≤ q then ⌊q + 1 / 2⌋ else -⌊-q + 1 / 2⌋

/-- The PTS computation `(delta_time as f64 / (1000.0 / self.fps)).round() as i64`
(encoder.rs line 99). -/
def targetPts (fps : ℚ) (delta : ℤ) : ℤ :=
  rustRound ((delta : ℚ) / (1000 / fps))

/-- A video frame as the encoder sees it: a payload (pixel data, abstracted to
`α`) and an optional PTS, like `ffmpeg::util::frame::Video`. -/
structure VideoFrame (α : Type) where
  data : α
  pts : Option ℤ
deriving DecidableEq

/-- Session state of `H264Encoder` (encoder.rs lines 23-30): `fps`,
`start_time`, `last_frame`, plus a send counter indexing the codec oracle. -/
structure H264State (α : Type) where
  fps : ℚ
  start_time : Option ℕ
  last_frame : Option (VideoFrame α)
  sendCount : ℕ
deriving DecidableEq

/-- State right after `H264Encoder::new`: `start_time = None`, `last_frame = None`. -/
def H264State.init (fps : ℚ) : H264State α :=
  ⟨fps, none, none, 0⟩

/-- Observable events of one `encode_frame` call: a successful `send_frame`,
a failed (logged) `send_frame`, and a call to `receive_and_process_packets`. -/
inductive Ev (α : Type) where
  | sent (data : α) (pts : ℤ)
  | sendFailed (data : α) (pts : ℤ)
  | drained
deriving DecidableEq

/-- The PTS block of `encode_frame` (encoder.rs lines 91-100): delta is
`timestamp - start_time` when `start_time` is set, else `0`. -/
def computePts (s : H264State α) (t : ℕ) : ℤ :=
  match s.start_time with
  | some st => targetPts s.fps ((t : ℤ) - (st : ℤ))
  | none => targetPts s.fps 0

/-- The duplicate-frame loop (encoder.rs lines 112-124): each iteration sends
the previous frame at the next PTS and drains; a send error is logged and
breaks out (skipping that iteration's drain). Returns the events and the
updated send counter. -/
def dupLoop (ok : ℕ → Bool) (fd : α) : ℕ → ℤ → ℕ → List (Ev α) × ℕ
  | cnt, _, 0 => ([], cnt)
  | cnt, p, n + 1 =>
    if ok cnt then
      let r := dupLoop ok fd (cnt + 1) (p + 1) n
      (Ev.sent fd p :: Ev.drained :: r.1, r.2)
    else
      ([Ev.sendFailed fd p], cnt + 1)

/-- The no-previous-PTS path of `encode_frame` (encoder.rs lines 127-137):
set PTS 0, send (error only logged), store as `last_frame`, drain.
Note that `start_time` is not touched on this path. -/
def H264Encoder.sendFirst (ok : ℕ → Bool) (s : H264State α) (d : α) :
    H264State α × List (Ev α) :=
  (⟨s.fps, s.start_time, some ⟨d, some 0⟩, s.sendCount + 1⟩,
   [(if ok s.sendCount then Ev.sent d 0 else Ev.sendFailed d 0), Ev.drained])

/-- `H264Encoder::encode_frame` (encoder.rs lines 87-137). If the stored
`last_frame` has a PTS: compute the target PTS (setting `start_time` from this
call's timestamp if still unset, with delta treated as 0), drop the frame when
the target is not past the last PTS, otherwise synthesize at most
`min(gap - 1, 5)` duplicates of the previous frame, then send the current
frame at the target PTS (a send error is only logged), store it as
`last_frame`, and drain. Otherwise emit the frame at PTS 0 via `sendFirst`. -/
def H264Encoder.encode_frame (ok : ℕ → Bool) (s : H264State α) (d : α) (t : ℕ) :
    H264State α × List (Ev α) :=
  match s.last_frame with
  | some f =>
    match f.pts with
    | some lp =>
      let pts := computePts s t
      let startTime' := some (s.start_time.getD t)
      if pts ≤ lp then
        ({ s with start_time := startTime' }, [])
      else
        let dups := (min (pts - lp - 1) 5).toNat
        let r := dupLoop ok f.data s.sendCount (lp + 1) dups
        let ev := if ok r.2 then Ev.sent d pts else Ev.sendFailed d pts
        (⟨s.fps, startTime', some ⟨d, some pts⟩, r.2 + 1⟩, r.1 ++ [ev, Ev.drained])
    | none => H264Encoder.sendFirst ok s d
  | none => H264Encoder.sendFirst ok s d

/-- A sequence of `encode_frame` calls: final state and concatenated events. -/
def runEncode (ok : ℕ → Bool) (s : H264State α) :
    List (α × ℕ) → H264State α × List (Ev α)
  | [] => (s, [])
  | (d, t) :: rest =>
    let r := H264Encoder.encode_frame ok s d t
    let r2 := runEncode ok r.1 rest
    (r2.1, r.2 ++ r2.2)

/-- PTS of a submission attempt (`send_frame` call), successful or not. -/
def Ev.submitted : Ev α → Option ℤ
  | .sent _ p => some p
  | .sendFailed _ p => some p
  | .drained => none

/-- PTS values of all frames submitted to the codec, in order. -/
def submittedPts (evs : List (Ev α)) : List ℤ :=
  evs.filterMap Ev.submitted

/-- Oracle under which every `send_frame` succeeds. -/
def okAll : ℕ → Bool := fun _ => true

/-- Session state of `MP3Encoder` (encoder.rs lines 216-222): the running
sample cursor `sample_number`. -/
structure MP3State where
  sample_number : ℤ
deriving DecidableEq

/-- `MP3Encoder::encode_frame` (encoder.rs lines 268-274): the frame's PTS is
the current `sample_number`; the cursor then advances by the frame's sample
count. Returns the new state and the PTS assigned to this frame. The codec
interaction (`send_frame(..).unwrap()` and the drain) does not influence the
PTS, so it is abstracted away here; its failure behaviour is modelled by
`MP3Encoder.receive_and_process_packets` below. -/
def MP3Encoder.encode_frame (s : MP3State) (samples : ℕ) : MP3State × ℤ :=
  (⟨s.sample_number + (samples : ℤ)⟩, s.sample_number)

/-- PTS values assigned to a sequence of audio frames given by their sample
counts. -/
def runAudio (s : MP3State) : List ℕ → List ℤ
  | [] => []
  | n :: rest =>
    (MP3Encoder.encode_frame s n).2 :: runAudio (MP3Encoder.encode_frame s n).1 rest

/-- Result of Rust code that may `panic!` (slice-length mismatch, `unwrap`): a
panic aborts instead of returning a value. -/
inductive PanicOr (α : Type) where
  | panicked
  | ok (val : α)
deriving DecidableEq

/-- A freshly allocated ffmpeg frame plane of `size` bytes
(`ffmpeg::frame::Video::new`). -/
def newPlane (size : ℕ) : List UInt8 :=
  List.replicate size 0

/-- Rust `<[u8]>::copy_from_slice`: panics unless the lengths match exactly,
otherwise the destination takes the source's contents. -/
def copy_from_slice (dst src : List UInt8) : PanicOr (List UInt8) :=
  if src.length = dst.length then .ok src else .panicked

/-- `uyvy422_frame` (encoder.rs lines 164-170): one packed plane of
`stride * height` bytes (`stride` is ffmpeg's possibly padded line size,
at least `2 * width`), filled by `copy_from_slice` — which panics when the
input length differs from the plane size. -/
def uyvy422_frame (bytes : List UInt8) (_width height stride : ℕ) :
    PanicOr (List UInt8) :=
  copy_from_slice (newPlane (stride * height)) bytes

/-- `yuyv422_frame` (encoder.rs lines 172-178): same shape as `uyvy422_frame`
with the other 4:2:2 byte order. -/
def yuyv422_frame (bytes : List UInt8) (_width height stride : ℕ) :
    PanicOr (List UInt8) :=
  copy_from_slice (newPlane (stride * height)) bytes

/-- `nv12_frame` (encoder.rs lines 180-189): copies `width*height` luma bytes
into plane 0 and half as many interleaved chroma bytes into plane 1. The
slicings `frame.data_mut(0)[..y_size]`, `&bytes[..y_size]` and
`&bytes[y_size..y_size + uv_size]` panic when out of range; extra trailing
input bytes are silently ignored. -/
def nv12_frame (bytes : List UInt8) (width height : ℕ)
    (plane0 plane1 : List UInt8) : PanicOr (List UInt8 × List UInt8) :=
  let y_size := width * height
  let uv_size := y_size / 2
  if y_size ≤ plane0.length ∧ uv_size ≤ plane1.length ∧
      y_size + uv_size ≤ bytes.length then
    .ok (bytes.take y_size ++ plane0.drop y_size,
      (bytes.drop y_size).take uv_size ++ plane1.drop uv_size)
  else .panicked

/-- Rust `chunks_exact n`: the list of full `n`-byte chunks (the remainder is
dropped; `n = 0` yields no chunks). -/
def chunksExact (n : ℕ) (l : List UInt8) : List (List UInt8) :=
  if _h : 0 < n ∧ n ≤ l.length then
    l.take n :: chunksExact n (l.drop n)
  else []
termination_by l.length
decreasing_by
  simp only [List.length_drop]
  omega

/-- The row-copy loop of `bgra_frame`: `zip` of source rows with destination
rows, each destination row keeping its bytes past `lineW`; destination rows
beyond the shorter iterator are left untouched. -/
def copyRows (lineW : ℕ) : List (List UInt8) → List (List UInt8) → List (List UInt8)
  | ds, [] => ds
  | [], _ => []
  | d :: ds, srow :: ss => (srow ++ d.drop lineW) :: copyRows lineW ds ss

/-- `bgra_frame` (encoder.rs lines 191-214): validates
`data.len() == width * height * 4` and returns `None` on mismatch before any
allocation or copying; otherwise copies row by row from tight
`width * 4`-byte source rows into `stride`-byte destination rows of a fresh
plane (`stride` is ffmpeg's line size, at least `width * 4`). -/
def bgra_frame (data : List UInt8) (width height stride : ℕ) :
    Option (List (List UInt8)) :=
  let expected_size := width * height * 4
  if data.length ≠ expected_size then none
  else
    let expected_linesize := width * 4
    some (copyRows expected_linesize
      (chunksExact stride (newPlane (stride * height)))
      (chunksExact expected_linesize data))

/-- `H264Encoder::receive_and_process_packets` (encoder.rs lines 139-153):
pull packets while the codec has them; each is rescaled from `1/fps` to the
stream time base (abstract `resc`) and written interleaved; a write failure
(`wok p = false`) is logged and breaks the loop. Returns the written packets;
the function always returns (the session continues). -/
def H264Encoder.receive_and_process_packets (resc : ℤ → ℤ) (wok : ℤ → Bool) :
    List ℤ → List ℤ
  | [] => []
  | p :: ps =>
    if wok p then resc p :: H264Encoder.receive_and_process_packets resc wok ps
    else []

/-- `MP3Encoder::receive_and_process_packets` (encoder.rs lines 276-284):
pull packets while the codec has them; each keeps its timestamp value and is
merely retagged with the audio stream's time base (`set_time_base`, no
rescale) and written non-interleaved with `.unwrap()` — a write failure
panics, aborting the session. -/
def MP3Encoder.receive_and_process_packets (wok : ℤ → Bool) :
    List ℤ → PanicOr (List ℤ)
  | [] => .ok []
  | p :: ps =>
    if wok p then
      match MP3Encoder.receive_and_process_packets wok ps with
      | .ok l => .ok (p :: l)
      | .panicked => .panicked
    else .panicked

/-- Codec identifiers looked up at construction. -/
inductive CodecId where
  | h264
  | mp3
deriving DecidableEq

/-- Side-effecting steps performed by the encoder constructors, in order. -/
inductive BuildStep where
  | openOutput
  | findEncoder (c : CodecId)
  | addStream
  | setStreamParameters
  | setWidth (w : ℕ)
  | setHeight (h : ℕ)
  | setPixelFormatYUV420P
  | setFrameRate (fps : ℚ)
  | setEncoderTimeBase (tb : ℚ)
  | setGop (g : ℕ)
  | setMaxBitRate (b : ℕ)
  | setBitRate (b : ℕ)
  | setRate (r : ℕ)
  | setChannelLayoutMono
  | setEncoderTimeBasePair (num den : ℕ)
  | setSampleFormatF32Packed
  | setGlobalHeaderFlag
  | openEncoderWith (opts : List (String × String))
  | openEncoder
  | setStreamTimeBase (tb : ℚ)
  | setStreamTimeBasePair (num den : ℕ)
  | setStreamMetadata (m : List (String × String))
  | writeHeader
deriving DecidableEq

/-- `H264Encoder::new` (encoder.rs lines 37-85) as its ordered trace of
construction steps; `globalHeader` is whether the container format demands
global headers. Note the final `output.write_header()`. -/
def H264Encoder.new_steps (w h : ℕ) (fps : ℚ) (globalHeader : Bool) :
    List BuildStep :=
  [BuildStep.openOutput, BuildStep.findEncoder CodecId.h264, BuildStep.addStream,
   BuildStep.setStreamParameters, BuildStep.setWidth w, BuildStep.setHeight h,
   BuildStep.setPixelFormatYUV420P, BuildStep.setFrameRate fps,
   BuildStep.setEncoderTimeBase (1 / fps), BuildStep.setGop ⌊fps⌋.toNat,
   BuildStep.setMaxBitRate 8000]
  ++ (if globalHeader then [BuildStep.setGlobalHeaderFlag] else [])
  ++ [BuildStep.openEncoderWith [("preset", "ultrafast"), ("tune", "zerolatency")],
   BuildStep.setStreamParameters, BuildStep.setStreamTimeBase (1 / fps),
   BuildStep.setStreamMetadata [("tune", "zerolatency")], BuildStep.writeHeader]

/-- `MP3Encoder::new` (encoder.rs lines 225-266) as its ordered trace of
construction steps: open the container, add a mono MP3 stream at the given
sample rate (F32 packed samples, 128 kbit/s, time base `1/sample_rate`) and
open the encoder. There is no `write_header` step. -/
def MP3Encoder.new_steps (sample_rate : ℕ) (globalHeader : Bool) :
    List BuildStep :=
  [BuildStep.openOutput, BuildStep.findEncoder CodecId.mp3, BuildStep.addStream,
   BuildStep.setStreamParameters, BuildStep.setRate sample_rate,
   BuildStep.setBitRate 128000, BuildStep.setMaxBitRate 128000,
   BuildStep.setChannelLayoutMono,
   BuildStep.setEncoderTimeBasePair 1 sample_rate,
   BuildStep.setSampleFormatF32Packed]
  ++ (if globalHeader then [BuildStep.setGlobalHeaderFlag] else [])
  ++ [BuildStep.openEncoder, BuildStep.setStreamParameters,
   BuildStep.setStreamTimeBasePair 1 sample_rate]

/-- The PTS recorded in the encoder's retained `last_frame`, if any. -/
def lastPts (s : H264State α) : Option ℤ :=
  s.last_frame.bind VideoFrame.pts

lemma encode_frame_first (ok : ℕ → Bool) (s : H264State α) (d : α) (t : ℕ)
    (h : lastPts s = none) :
    H264Encoder.encode_frame ok s d t = H264Encoder.sendFirst ok s d := by
  rcases hf : s.last_frame with _ | f
  · simp [H264Encoder.encode_frame, hf]
  · rcases hp : f.pts with _ | lp
    · simp [H264Encoder.encode_frame, hf, hp]
    · simp [lastPts, hf, hp] at h

lemma encode_frame_drop (ok : ℕ → Bool) (s : H264State α) (d : α) (t : ℕ)
    (f : VideoFrame α) (lp : ℤ) (hf : s.last_frame = some f) (hp : f.pts = some lp)
    (hle : computePts s t ≤ lp) :
    H264Encoder.encode_frame ok s d t =
      ({ s with start_time := some (s.start_time.getD t) }, []) := by
  simp only [H264Encoder.encode_frame, hf, hp]
  rw [if_pos hle]

lemma encode_frame_gap (ok : ℕ → Bool) (s : H264State α) (d : α) (t : ℕ)
    (f : VideoFrame α) (lp : ℤ) (hf : s.last_frame = some f) (hp : f.pts = some lp)
    (hlt : lp < computePts s t) :
    H264Encoder.encode_frame ok s d t =
      (⟨s.fps, some (s.start_time.getD t), some ⟨d, some (computePts s t)⟩,
        (dupLoop ok f.data s.sendCount (lp + 1) (min (computePts s t - lp - 1) 5).toNat).2 + 1⟩,
       (dupLoop ok f.data s.sendCount (lp + 1) (min (computePts s t - lp - 1) 5).toNat).1
         ++ [(if ok (dupLoop ok f.data s.sendCount (lp + 1)
                (min (computePts s t - lp - 1) 5).toNat).2
              then Ev.sent d (computePts s t) else Ev.sendFailed d (computePts s t)),
             Ev.drained]) := by
  simp only [H264Encoder.encode_frame, hf, hp]
  rw [if_neg (not_le.mpr hlt)]

lemma dupLoop_okAll (fd : α) (n : ℕ) : ∀ (cnt : ℕ) (p : ℤ),
    dupLoop okAll fd cnt p n =
      (((List.range n).flatMap fun i : ℕ => [Ev.sent fd (p + (i : ℤ)), Ev.drained]),
       cnt + n) := by
  induction n with
  | zero => intro cnt p; simp [dupLoop]
  | succ n ih =>
    intro cnt p
    have hfun : (fun i : ℕ => [Ev.sent fd (p + ((i + 1 : ℕ) : ℤ)), Ev.drained])
        = fun i : ℕ => [Ev.sent fd (p + 1 + (i : ℤ)), Ev.drained] := by
      funext i
      push_cast
      rw [show p + ((i : ℤ) + 1) = p + 1 + (i : ℤ) by ring]
    simp only [dupLoop, okAll, if_pos rfl, ih, List.range_succ_eq_map,
      List.flatMap_cons, List.flatMap_map]
    refine Prod.ext ?_ (by simp; omega)
    simp only [Nat.cast_zero, add_zero, Nat.succ_eq_add_one]
    rw [show (fun a : ℕ => [Ev.sent fd (p + ((a + 1 : ℕ) : ℤ)), Ev.drained])
          = fun i : ℕ => [Ev.sent fd (p + 1 + (i : ℤ)), Ev.drained] from hfun]
    simp

lemma dupLoop_structure (ok : ℕ → Bool) (fd : α) (n : ℕ) : ∀ (cnt : ℕ) (p : ℤ),
    ∃ j ≤ n, (dupLoop ok fd cnt p n).1 =
      ((List.range j).flatMap fun i : ℕ => [Ev.sent fd (p + (i : ℤ)), Ev.drained])
        ++ (if j < n then [Ev.sendFailed fd (p + (j : ℤ))] else []) := by
  induction n with
  | zero => intro cnt p; exact ⟨0, le_refl 0, by simp [dupLoop]⟩
  | succ n ih =>
    intro cnt p
    by_cases hok : ok cnt
    · obtain ⟨j, hj, hev⟩ := ih (cnt + 1) (p + 1)
      refine ⟨j + 1, by omega, ?_⟩
      have hfun : (fun i : ℕ => [Ev.sent fd (p + ((i + 1 : ℕ) : ℤ)), Ev.drained])
          = fun i : ℕ => [Ev.sent fd (p + 1 + (i : ℤ)), Ev.drained] := by
        funext i
        push_cast
        rw [show p + ((i : ℤ) + 1) = p + 1 + (i : ℤ) by ring]
      simp only [dupLoop, if_pos hok, hev, List.range_succ_eq_map,
        List.flatMap_cons, List.flatMap_map, Nat.cast_zero, add_zero,
        Nat.succ_eq_add_one]
      rw [show (fun a : ℕ => [Ev.sent fd (p + ((a + 1 : ℕ) : ℤ)), Ev.drained])
            = fun i : ℕ => [Ev.sent fd (p + 1 + (i : ℤ)), Ev.drained] from hfun]
      have hiff : j + 1 < n + 1 ↔ j < n := by omega
      have hcast : p + 1 + (j : ℤ) = p + ((j + 1 : ℕ) : ℤ) := by push_cast; ring
      simp [hiff, hcast]
    · refine ⟨0, by omega, ?_⟩
      simp [dupLoop, if_neg hok]

lemma submitted_ite (c : Bool) (d : α) (p : ℤ) :
    Ev.submitted (if c then Ev.sent d p else Ev.sendFailed d p) = some p := by
  cases c <;> simp [Ev.submitted]

lemma dupLoop_submitted (ok : ℕ → Bool) (fd : α) (n : ℕ) : ∀ (cnt : ℕ) (p : ℤ),
    ∃ k ≤ n, submittedPts (dupLoop ok fd cnt p n).1 =
      (List.range k).map fun i : ℕ => p + (i : ℤ) := by
  induction n with
  | zero => intro cnt p; exact ⟨0, le_refl 0, by simp [dupLoop, submittedPts]⟩
  | succ n ih =>
    intro cnt p
    by_cases hok : ok cnt
    · obtain ⟨k, hk, hsub⟩ := ih (cnt + 1) (p + 1)
      refine ⟨k + 1, by omega, ?_⟩
      have hfun : (fun i : ℕ => p + ((i + 1 : ℕ) : ℤ)) = fun i : ℕ => p + 1 + (i : ℤ) := by
        funext i
        push_cast
        ring
      simp only [dupLoop, if_pos hok, submittedPts, List.filterMap_cons,
        Ev.submitted, List.range_succ_eq_map, List.map_cons, List.map_map,
        Nat.cast_zero, add_zero, Nat.succ_eq_add_one]
      have hcomp : ((fun i : ℕ => p + (i : ℤ)) ∘ fun i : ℕ => i + 1)
          = fun i : ℕ => p + 1 + (i : ℤ) := by
        funext i
        simp only [Function.comp]
        push_cast
        ring
      rw [hcomp]
      exact congrArg (List.cons p) hsub
    · refine ⟨1, by omega, ?_⟩
      simp [dupLoop, if_neg hok, submittedPts, Ev.submitted,
        show List.range 1 = [0] from rfl]

lemma submittedPts_append (l₁ l₂ : List (Ev α)) :
    submittedPts (l₁ ++ l₂) = submittedPts l₁ ++ submittedPts l₂ :=
  List.filterMap_append l₁ l₂ Ev.submitted

lemma sendFirst_submitted (ok : ℕ → Bool) (s : H264State α) (d : α) :
    submittedPts (H264Encoder.sendFirst ok s d).2 = [0] := by
  cases hok : ok s.sendCount <;>
    simp [H264Encoder.sendFirst, submittedPts, Ev.submitted, hok]

lemma sendFirst_lastPts (ok : ℕ → Bool) (s : H264State α) (d : α) :
    lastPts (H264Encoder.sendFirst ok s d).1 = some 0 :=
  rfl

lemma encode_frame_spec (ok : ℕ → Bool) (s : H264State α) (d : α) (t : ℕ) :
    (submittedPts (H264Encoder.encode_frame ok s d t).2).Pairwise (· < ·)
    ∧ (∀ q ∈ submittedPts (H264Encoder.encode_frame ok s d t).2,
        (∀ lp, lastPts s = some lp → lp < q)
        ∧ ∃ m, lastPts (H264Encoder.encode_frame ok s d t).1 = some m ∧ q ≤ m)
    ∧ ∀ lp, lastPts s = some lp →
        ∃ m, lastPts (H264Encoder.encode_frame ok s d t).1 = some m ∧ lp ≤ m := by
  rcases hl : lastPts s with _ | lp
  · rw [encode_frame_first ok s d t hl]
    refine ⟨?_, ?_, ?_⟩
    · rw [sendFirst_submitted]
      simp
    · intro q hq
      rw [sendFirst_submitted] at hq
      simp only [List.mem_singleton] at hq
      subst hq
      refine ⟨?_, 0, sendFirst_lastPts ok s d, le_refl 0⟩
      intro lp hlp
      simp at hlp
    · intro lp hlp
      simp at hlp
  · obtain ⟨f, hf, hp⟩ : ∃ f, s.last_frame = some f ∧ f.pts = some lp := by
      rcases hfo : s.last_frame with _ | f
      · rw [lastPts, hfo] at hl
        cases hl
      · exact ⟨f, rfl, by rw [lastPts, hfo] at hl; exact hl⟩
    by_cases hle : computePts s t ≤ lp
    · rw [encode_frame_drop ok s d t f lp hf hp hle]
      refine ⟨by simp [submittedPts], ?_, ?_⟩
      · intro q hq
        simp [submittedPts] at hq
      · intro lp' hlp'
        obtain rfl : lp = lp' := Option.some.inj hlp'
        exact ⟨lp, by simp [lastPts, hf, hp], le_refl _⟩
    · push_neg at hle
      rw [encode_frame_gap ok s d t f lp hf hp hle]
      dsimp only
      obtain ⟨k, hk, hsub⟩ :=
        dupLoop_submitted ok f.data (min (computePts s t - lp - 1) 5).toNat
          s.sendCount (lp + 1)
      have hsplit :
          submittedPts
            ((dupLoop ok f.data s.sendCount (lp + 1)
                (min (computePts s t - lp - 1) 5).toNat).1
              ++ [(if ok (dupLoop ok f.data s.sendCount (lp + 1)
                      (min (computePts s t - lp - 1) 5).toNat).2
                   then Ev.sent d (computePts s t)
                   else Ev.sendFailed d (computePts s t)), Ev.drained])
          = ((List.range k).map fun i : ℕ => lp + 1 + (i : ℤ)) ++ [computePts s t] := by
        rw [submittedPts_append, hsub]
        refine congrArg _ ?_
        cases hok : ok (dupLoop ok f.data s.sendCount (lp + 1)
            (min (computePts s t - lp - 1) 5).toNat).2 <;>
          simp [submittedPts, Ev.submitted, hok]
      rw [hsplit]
      have hlast : lastPts
          (⟨s.fps, some (s.start_time.getD t), some ⟨d, some (computePts s t)⟩,
            (dupLoop ok f.data s.sendCount (lp + 1)
              (min (computePts s t - lp - 1) 5).toNat).2 + 1⟩ : H264State α)
          = some (computePts s t) := rfl
      refine ⟨?_, ?_, ?_⟩
      · refine List.pairwise_append.mpr ⟨?_, by simp, ?_⟩
        · refine List.pairwise_map.mpr ?_
          refine (List.pairwise_lt_range k).imp ?_
          intro a b hab
          omega
        · intro a ha b hb
          simp only [List.mem_singleton] at hb
          subst hb
          simp only [List.mem_map, List.mem_range] at ha
          obtain ⟨i, hi, rfl⟩ := ha
          omega
      · intro q hq
        simp only [List.mem_append, List.mem_map, List.mem_range,
          List.mem_singleton] at hq
        have hq' : (∃ i, i < k ∧ lp + 1 + (i : ℤ) = q) ∨ q = computePts s t := hq
        refine ⟨?_, computePts s t, hlast, ?_⟩
        · intro lp' hlp'
          obtain rfl : lp = lp' := Option.some.inj hlp'
          rcases hq' with ⟨i, hi, rfl⟩ | rfl
          · omega
          · omega
        · rcases hq' with ⟨i, hi, rfl⟩ | rfl
          · omega
          · exact le_refl _
      · intro lp' hlp'
        obtain rfl : lp = lp' := Option.some.inj hlp'
        exact ⟨computePts s t, hlast, le_of_lt hle⟩

lemma runEncode_spec (ok : ℕ → Bool) (frames : List (α × ℕ)) :
    ∀ s : H264State α,
    (submittedPts (runEncode ok s frames).2).Pairwise (· < ·)
    ∧ (∀ q ∈ submittedPts (runEncode ok s frames).2,
        (∀ lp, lastPts s = some lp → lp < q)
        ∧ ∃ m, lastPts (runEncode ok s frames).1 = some m ∧ q ≤ m)
    ∧ ∀ lp, lastPts s = some lp →
        ∃ m, lastPts (runEncode ok s frames).1 = some m ∧ lp ≤ m := by
  induction frames with
  | nil =>
    intro s
    refine ⟨by simp [runEncode, submittedPts], ?_, ?_⟩
    · intro q hq
      simp [runEncode, submittedPts] at hq
    · intro lp hlp
      exact ⟨lp, hlp, le_refl _⟩
  | cons ft rest ih =>
    obtain ⟨d, t⟩ := ft
    intro s
    obtain ⟨P1, P2, P3⟩ := encode_frame_spec ok s d t
    obtain ⟨Q1, Q2, Q3⟩ := ih (H264Encoder.encode_frame ok s d t).1
    have hrun : runEncode ok s ((d, t) :: rest)
        = ((runEncode ok (H264Encoder.encode_frame ok s d t).1 rest).1,
           (H264Encoder.encode_frame ok s d t).2
             ++ (runEncode ok (H264Encoder.encode_frame ok s d t).1 rest).2) := rfl
    rw [hrun]
    dsimp only
    rw [submittedPts_append]
    refine ⟨?_, ?_, ?_⟩
    · refine List.pairwise_append.mpr ⟨P1, Q1, ?_⟩
      intro a ha b hb
      obtain ⟨m, hm, ham⟩ := (P2 a ha).2
      exact lt_of_le_of_lt ham ((Q2 b hb).1 m hm)
    · intro q hq
      rcases List.mem_append.mp hq with hq1 | hq2
      · refine ⟨(P2 q hq1).1, ?_⟩
        obtain ⟨m, hm, hqm⟩ := (P2 q hq1).2
        obtain ⟨m', hm', hmm'⟩ := Q3 m hm
        exact ⟨m', hm', le_trans hqm hmm'⟩
      · refine ⟨?_, (Q2 q hq2).2⟩
        intro lp hlp
        obtain ⟨m, hm, hlm⟩ := P3 lp hlp
        exact lt_of_le_of_lt hlm ((Q2 q hq2).1 m hm)
    · intro lp hlp
      obtain ⟨m, hm, hlm⟩ := P3 lp hlp
      obtain ⟨m', hm', hmm'⟩ := Q3 m hm
      exact ⟨m', hm', le_trans hlm hmm'⟩

lemma runAudio_spec (sizes : List ℕ) : ∀ s : MP3State,
    runAudio s sizes =
      (List.range sizes.length).map
        fun i : ℕ => s.sample_number + ((sizes.take i).sum : ℤ) := by
  induction sizes with
  | nil => intro s; simp [runAudio]
  | cons n rest ih =>
    intro s
    have hcomp :
        ((fun i : ℕ => s.sample_number + (((n :: rest).take i).sum : ℤ))
            ∘ fun i : ℕ => i + 1)
          = fun i : ℕ => (s.sample_number + (n : ℤ)) + ((rest.take i).sum : ℤ) := by
      funext i
      simp only [Function.comp, List.take_succ_cons, List.sum_cons]
      push_cast
      ring
    simp only [runAudio, MP3Encoder.encode_frame, ih, List.length_cons,
      List.range_succ_eq_map, List.map_cons, List.map_map, Nat.succ_eq_add_one]
    rw [hcomp]
    simp

lemma lastPts_eq_some {s : H264State α} {lp : ℤ} (h : lastPts s = some lp) :
    ∃ f, s.last_frame = some f ∧ f.pts = some lp := by
  rcases hfo : s.last_frame with _ | f
  · rw [lastPts, hfo] at h
    cases h
  · exact ⟨f, rfl, by rw [lastPts, hfo] at h; exact h⟩

/-- C1, counterexample. The claim says the first `encode_frame` call lazily
sets `start_time` to its capture timestamp; in the code the first call takes
the no-previous-frame path, which never touches `start_time`, so after a
first call with timestamp 42 it is still `None`. -/
theorem C1_counterexample :
    (H264Encoder.encode_frame okAll (H264State.init (α := ℕ) 30) 0 42).1.start_time
      ≠ some 42 := by
  decide

/-- C1, amended. `start_time` is set at most once, but not by the first call:
a call that finds no previously stored PTS (in particular the first call)
leaves `start_time` untouched, and the first call that does find one (the
second call) sets it — to that call's own capture timestamp, not the first
frame's. Once set it never changes. -/
theorem C1_amended (ok : ℕ → Bool) (s : H264State ℕ) (d t : ℕ) :
    (H264Encoder.encode_frame ok s d t).1.start_time =
      if (lastPts s).isSome then some (s.start_time.getD t) else s.start_time := by
  rcases hl : lastPts s with _ | lp
  · rw [encode_frame_first ok s d t hl]
    simp [H264Encoder.sendFirst]
  · obtain ⟨f, hf, hp⟩ := lastPts_eq_some hl
    by_cases hle : computePts s t ≤ lp
    · rw [encode_frame_drop ok s d t f lp hf hp hle]
      simp
    · push_neg at hle
      rw [encode_frame_gap ok s d t f lp hf hp hle]
      simp

/-- C2, counterexample. Feeding a fresh 30 fps encoder one frame at `t = 0`
and a second at `t = 1000` does not produce 5 duplicates and a frame at
PTS 6: the second call merely sets `start_time := 1000`, computes target
PTS 0 and drops the frame, so the whole run emits only the first frame.
And in a state where a gap of 20 slots genuinely arises (`start_time`
already set, last PTS 1, target PTS 21), the new frame is emitted at the
target PTS `1 + 20 = 21`, not at `last_emitted_pts + 6 = 7`. -/
theorem C2_counterexample :
    (runEncode okAll (H264State.init (α := ℕ) 30) [(0, 0), (1, 1000)]).2
        = [Ev.sent 0 0, Ev.drained]
    ∧ (H264Encoder.encode_frame okAll
          (⟨30, some 0, some ⟨7, some 1⟩, 0⟩ : H264State ℕ) 9 700).2
        = [Ev.sent 7 2, Ev.drained, Ev.sent 7 3, Ev.drained, Ev.sent 7 4,
           Ev.drained, Ev.sent 7 5, Ev.drained, Ev.sent 7 6, Ev.drained,
           Ev.sent 9 21, Ev.drained] := by
  constructor
  · have h1 : H264Encoder.encode_frame okAll (H264State.init (α := ℕ) 30) 0 0
        = (⟨30, none, some ⟨0, some 0⟩, 1⟩, [Ev.sent 0 0, Ev.drained]) := rfl
    have hpts : computePts (⟨30, none, some ⟨0, some 0⟩, 1⟩ : H264State ℕ) 1000 = 0 := by
      norm_num [computePts, targetPts, rustRound]
    have h2 := encode_frame_drop okAll
      (⟨30, none, some ⟨0, some 0⟩, 1⟩ : H264State ℕ) 1 1000 ⟨0, some 0⟩ 0 rfl rfl
      (by rw [hpts])
    simp [runEncode, h1, h2]
  · have hpts : computePts (⟨30, some 0, some ⟨7, some 1⟩, 0⟩ : H264State ℕ) 700 = 21 := by
      norm_num [computePts, targetPts, rustRound]
    rw [encode_frame_gap okAll _ 9 700 ⟨7, some 1⟩ 1 rfl rfl (by rw [hpts]; norm_num)]
    rw [hpts]
    dsimp only
    have hmin : ((21 - 1 - 1 : ℤ) ⊓ 5).toNat = 5 := by decide
    rw [hmin, dupLoop_okAll (7 : ℕ) 5 0 (1 + 1)]
    decide

/-- C2, amended. Whenever the stored last PTS is `lp` and the computed target
PTS equals `lp + 20` (a gap of 20 frame-slots), exactly 5 duplicates of the
previous frame are synthesized at PTS `lp+1 … lp+5` and the new frame is
emitted with PTS `lp + 20` — the target PTS, not `lp + 6`. (The spec's
`t = 0` / `t = 1000` example never reaches this path on a fresh encoder,
because the second call is the one that sets `start_time` and is dropped.) -/
theorem C2_amended (s : H264State ℕ) (d t : ℕ) (f : VideoFrame ℕ) (lp : ℤ)
    (hf : s.last_frame = some f) (hp : f.pts = some lp)
    (h20 : computePts s t = lp + 20) :
    (H264Encoder.encode_frame okAll s d t).2 =
      [Ev.sent f.data (lp + 1), Ev.drained, Ev.sent f.data (lp + 2), Ev.drained,
       Ev.sent f.data (lp + 3), Ev.drained, Ev.sent f.data (lp + 4), Ev.drained,
       Ev.sent f.data (lp + 5), Ev.drained, Ev.sent d (lp + 20), Ev.drained] := by
  have hlt : lp < computePts s t := by omega
  rw [encode_frame_gap okAll s d t f lp hf hp hlt, h20]
  dsimp only
  have hmin : ((lp + 20 - lp - 1) ⊓ 5).toNat = 5 := by omega
  rw [hmin, dupLoop_okAll f.data 5 s.sendCount (lp + 1)]
  simp only [okAll, if_pos rfl, show List.range 5 = [0, 1, 2, 3, 4] from rfl,
    List.flatMap_cons, List.flatMap_nil, List.append_nil, List.cons_append,
    List.nil_append]
  norm_num
  refine ⟨by ring, by ring, by ring, by ring⟩

/-- C2, witness for the amended theorem at `fps = 30`, `start_time = 0`,
last PTS 1, capture timestamp 700 ms (target PTS `21 = 1 + 20`). -/
theorem C2_witness :
    (H264Encoder.encode_frame okAll
        (⟨30, some 0, some ⟨7, some 1⟩, 0⟩ : H264State ℕ) 9 700).2 =
      [Ev.sent 7 (1 + 1), Ev.drained, Ev.sent 7 (1 + 2), Ev.drained,
       Ev.sent 7 (1 + 3), Ev.drained, Ev.sent 7 (1 + 4), Ev.drained,
       Ev.sent 7 (1 + 5), Ev.drained, Ev.sent 9 (1 + 20), Ev.drained] :=
  C2_amended _ 9 700 ⟨7, some 1⟩ 1 rfl rfl
    (by norm_num [computePts, targetPts, rustRound])

/-- C3: whenever the target PTS is more than one slot past the stored last
PTS, `encode_frame` (with every codec send succeeding) synthesizes exactly
`min(gap - 1, 5)` duplicates of the previous frame's data, at consecutive
PTS values `lp+1, lp+2, …`, each followed by a packet drain, all before the
current frame is sent at the target PTS and drained. -/
theorem C3_gap_fill (s : H264State ℕ) (d t : ℕ) (f : VideoFrame ℕ) (lp : ℤ)
    (hf : s.last_frame = some f) (hp : f.pts = some lp)
    (hgap : lp + 1 < computePts s t) :
    (H264Encoder.encode_frame okAll s d t).2 =
      ((List.range (min (computePts s t - lp - 1) 5).toNat).flatMap
        fun i : ℕ => [Ev.sent f.data (lp + 1 + (i : ℤ)), Ev.drained])
      ++ [Ev.sent d (computePts s t), Ev.drained] := by
  have hlt : lp < computePts s t := by omega
  rw [encode_frame_gap okAll s d t f lp hf hp hlt]
  dsimp only
  rw [dupLoop_okAll f.data _ s.sendCount (lp + 1)]
  simp [okAll]

/-- C3, witness: last PTS 0, target PTS 3 (gap 3), so exactly
`min(2, 5) = 2` duplicates appear before the new frame. -/
theorem C3_witness :
    (H264Encoder.encode_frame okAll
        (⟨30, some 0, some ⟨7, some 0⟩, 0⟩ : H264State ℕ) 9 100).2 =
      ((List.range (min (computePts
            (⟨30, some 0, some ⟨7, some 0⟩, 0⟩ : H264State ℕ) 100 - 0 - 1) 5).toNat).flatMap
        fun i : ℕ => [Ev.sent 7 (0 + 1 + (i : ℤ)), Ev.drained])
      ++ [Ev.sent 9 (computePts
            (⟨30, some 0, some ⟨7, some 0⟩, 0⟩ : H264State ℕ) 100), Ev.drained] :=
  C3_gap_fill _ 9 100 ⟨7, some 0⟩ 0 rfl rfl
    (by norm_num [computePts, targetPts, rustRound])

/-- C4, counterexample. The claim says a dropped frame changes no session
state at all; but the second call on a fresh encoder (first frame at `t = 0`,
next at `t = 1000`) is dropped *and* sets `start_time` from `None` to
`Some 1000`. -/
theorem C4_counterexample :
    (runEncode okAll (H264State.init (α := ℕ) 30) [(0, 0)]).1.start_time = none
    ∧ (H264Encoder.encode_frame okAll
        (runEncode okAll (H264State.init (α := ℕ) 30) [(0, 0)]).1 1 1000).2 = []
    ∧ (H264Encoder.encode_frame okAll
        (runEncode okAll (H264State.init (α := ℕ) 30) [(0, 0)]).1 1 1000).1.start_time
      = some 1000 := by
  have hs1 : (runEncode okAll (H264State.init (α := ℕ) 30) [(0, 0)]).1
      = (⟨30, none, some ⟨0, some 0⟩, 1⟩ : H264State ℕ) := rfl
  have hpts : computePts (⟨30, none, some ⟨0, some 0⟩, 1⟩ : H264State ℕ) 1000 = 0 := by
    norm_num [computePts, targetPts, rustRound]
  have h2 := encode_frame_drop okAll
    (⟨30, none, some ⟨0, some 0⟩, 1⟩ : H264State ℕ) 1 1000 ⟨0, some 0⟩ 0 rfl rfl
    (by rw [hpts])
  rw [hs1, h2]
  exact ⟨rfl, rfl, rfl⟩

/-- C4, amended. When the computed target PTS is at most the stored last
PTS, the incoming frame is discarded: no send or drain happens, no packet is
produced, and `fps`, `last_frame` and the last emitted PTS are unchanged —
but `start_time` is lazily set to this call's timestamp if it was still
unset (`Option.getD` keeps an already-set value). -/
theorem C4_amended (ok : ℕ → Bool) (s : H264State ℕ) (d t : ℕ)
    (f : VideoFrame ℕ) (lp : ℤ)
    (hf : s.last_frame = some f) (hp : f.pts = some lp)
    (hle : computePts s t ≤ lp) :
    H264Encoder.encode_frame ok s d t =
      ({ s with start_time := some (s.start_time.getD t) }, []) :=
  encode_frame_drop ok s d t f lp hf hp hle

/-- C4, witness: the amended drop behaviour at the concrete second call of
the `t = 0` / `t = 1000` scenario. -/
theorem C4_witness :
    H264Encoder.encode_frame okAll
        (⟨30, none, some ⟨0, some 0⟩, 1⟩ : H264State ℕ) 1 1000 =
      ((⟨30, some 1000, some ⟨0, some 0⟩, 1⟩ : H264State ℕ), []) :=
  C4_amended okAll _ 1 1000 ⟨0, some 0⟩ 0 rfl rfl
    (by norm_num [computePts, targetPts, rustRound])

/-- C5: across any sequence of `encode_frame` calls on a fresh video encoder
— for every frame rate and every pattern of codec send successes/failures —
the PTS values of the frames submitted to the codec are strictly
increasing. -/
theorem C5_video_pts_strictMono (fps : ℚ) (ok : ℕ → Bool)
    (frames : List (ℕ × ℕ)) :
    (submittedPts (runEncode ok (H264State.init (α := ℕ) fps) frames).2).Pairwise
      (· < ·) :=
  (runEncode_spec ok frames (H264State.init fps)).1

/-- C6: the audio encoder assigns each frame a PTS equal to the cumulative
sample count of all previously submitted frames — a pure function of the
sample sizes, with no wall-clock input and no drop or duplication logic; in
particular frames of sizes `[1024, 1024, 512]` get PTS `0, 1024, 2048`. -/
theorem C6_audio_pts_cumulative :
    (∀ sizes : List ℕ, runAudio ⟨0⟩ sizes =
      (List.range sizes.length).map fun i : ℕ => ((sizes.take i).sum : ℤ))
    ∧ runAudio ⟨0⟩ [1024, 1024, 512] = [0, 1024, 2048] := by
  constructor
  · intro sizes
    rw [runAudio_spec sizes ⟨0⟩]
    simp
  · rfl

/-- C7, counterexample. The claim says every adapter rejects a buffer whose
size is wrong for the declared dimensions; the semi-planar 4:2:0 adapter
accepts a 10-byte buffer for 2×2 (which needs only 6 bytes) and builds a
frame from its prefix instead of rejecting it. -/
theorem C7_counterexample :
    (List.replicate 10 (0 : UInt8)).length ≠ 2 * 2 + 2 * 2 / 2
    ∧ nv12_frame (List.replicate 10 (0 : UInt8)) 2 2 (newPlane 8) (newPlane 4)
        = PanicOr.ok (newPlane 8, newPlane 4) := by
  exact ⟨by decide, by decide⟩

/-- C7, amended. Only the 32-bit-colour adapter validates its input and
returns a typed empty result (`None`, before any copy) when the buffer
length differs from `width*height*4` — in particular at length
`width*height*4 - 1`. The packed 4:2:2 adapters instead panic whenever the
buffer length differs from the frame's plane size, and the semi-planar
4:2:0 adapter panics when the buffer is too short (but silently accepts an
oversized one). No adapter reads or writes out of bounds: the in-model
out-of-range slicings all surface as panics. -/
theorem C7_amended :
    (∀ (data : List UInt8) (w h stride : ℕ), data.length ≠ w * h * 4 →
        bgra_frame data w h stride = none)
    ∧ bgra_frame (newPlane (2 * 2 * 4 - 1)) 2 2 8 = none
    ∧ (∀ (bytes : List UInt8) (w h stride : ℕ), bytes.length ≠ stride * h →
        uyvy422_frame bytes w h stride = PanicOr.panicked)
    ∧ (∀ (bytes : List UInt8) (w h stride : ℕ), bytes.length ≠ stride * h →
        yuyv422_frame bytes w h stride = PanicOr.panicked)
    ∧ ∀ (bytes plane0 plane1 : List UInt8) (w h : ℕ),
        bytes.length < w * h + w * h / 2 →
        nv12_frame bytes w h plane0 plane1 = PanicOr.panicked := by
  refine ⟨?_, by decide, ?_, ?_, ?_⟩
  · intro data w h stride hne
    simp [bgra_frame, hne]
  · intro bytes w h stride hne
    simp [uyvy422_frame, copy_from_slice, newPlane, hne]
  · intro bytes w h stride hne
    simp [yuyv422_frame, copy_from_slice, newPlane, hne]
  · intro bytes plane0 plane1 w h hlt
    simp only [nv12_frame]
    rw [if_neg]
    rintro ⟨-, -, hC⟩
    omega

/-- C7, witness: the 32-bit-colour adapter rejects a 15-byte buffer for
2×2 (expected 16). -/
theorem C7_witness :
    (newPlane 15).length ≠ 2 * 2 * 4
    ∧ bgra_frame (newPlane 15) 2 2 8 = none :=
  ⟨by decide, C7_amended.1 (newPlane 15) 2 2 8 (by decide)⟩

/-- C8, counterexample. The claim says the audio drain loop handles a packet
write failure like the video one (log, stop early, session continues); in
the code the video loop returns normally with nothing written while the
audio loop `unwrap`s and panics. -/
theorem C8_counterexample :
    H264Encoder.receive_and_process_packets id (fun _ => false) [7] = []
    ∧ MP3Encoder.receive_and_process_packets (fun _ => false) [7]
        = PanicOr.panicked :=
  ⟨rfl, rfl⟩

/-- C8, amended. The video drain loop rescales each packet to the stream
time base and writes the longest prefix of successful writes, stopping early
on the first failure but always returning (the session continues, accepted
frames are not rolled back). The audio drain loop instead keeps timestamp
values unchanged (it only retags the time base) and panics — aborting —
on the first write failure, returning normally only when every write
succeeds. -/
theorem C8_amended (resc : ℤ → ℤ) (wok : ℤ → Bool) (pkts : List ℤ) :
    H264Encoder.receive_and_process_packets resc wok pkts
        = (pkts.takeWhile wok).map resc
    ∧ MP3Encoder.receive_and_process_packets wok pkts
        = (if pkts.all wok then PanicOr.ok pkts else PanicOr.panicked) := by
  induction pkts with
  | nil => exact ⟨rfl, rfl⟩
  | cons p ps ih =>
    constructor
    · by_cases hw : wok p
      · simp [H264Encoder.receive_and_process_packets, hw, List.takeWhile_cons,
          ih.1]
      · simp [H264Encoder.receive_and_process_packets, hw, List.takeWhile_cons]
    · by_cases hw : wok p
      · rw [MP3Encoder.receive_and_process_packets, if_pos hw, ih.2]
        by_cases ha : ps.all wok
        · simp [ha, List.all_cons, hw]
        · simp [ha, List.all_cons, hw]
      · rw [MP3Encoder.receive_and_process_packets, if_neg hw]
        simp [List.all_cons, hw]

/-- C9, counterexample. The claim says `MP3Encoder::new` writes the
container header before returning; its construction trace contains no
`write_header` step (unlike `H264Encoder::new`). -/
theorem C9_counterexample :
    BuildStep.writeHeader ∉ MP3Encoder.new_steps 44100 false := by
  decide

/-- C9, amended. `MP3Encoder::new(path, sample_rate)` opens the output
container, configures the audio encoder for mono at the given sample rate
(128 kbit/s, time base `1/sample_rate`) and opens it — but it does *not*
write the container header before returning. -/
theorem C9_amended (sr : ℕ) (gh : Bool) :
    BuildStep.openOutput ∈ MP3Encoder.new_steps sr gh
    ∧ BuildStep.setChannelLayoutMono ∈ MP3Encoder.new_steps sr gh
    ∧ BuildStep.setRate sr ∈ MP3Encoder.new_steps sr gh
    ∧ BuildStep.setEncoderTimeBasePair 1 sr ∈ MP3Encoder.new_steps sr gh
    ∧ BuildStep.openEncoder ∈ MP3Encoder.new_steps sr gh
    ∧ BuildStep.writeHeader ∉ MP3Encoder.new_steps sr gh := by
  cases gh <;> simp [MP3Encoder.new_steps]

/-- C10: a codec send failure never aborts an `encode_frame` call. Whatever
the pattern of send results, when the target PTS is past the stored last
PTS the call's events are a (possibly truncated) duplicate prefix — ending
in a single failed duplicate send if one failed — always followed by the
submission of the incoming frame at its target PTS (successful or not) and
a drain; and the incoming frame replaces `last_frame` with its target PTS
even when its own send failed. -/
theorem C10_send_failure (ok : ℕ → Bool) (s : H264State ℕ) (d t : ℕ)
    (f : VideoFrame ℕ) (lp : ℤ)
    (hf : s.last_frame = some f) (hp : f.pts = some lp)
    (hlt : lp < computePts s t) :
    (H264Encoder.encode_frame ok s d t).1.last_frame
        = some ⟨d, some (computePts s t)⟩
    ∧ ∃ j e, j ≤ (min (computePts s t - lp - 1) 5).toNat
        ∧ (e = Ev.sent d (computePts s t) ∨ e = Ev.sendFailed d (computePts s t))
        ∧ (H264Encoder.encode_frame ok s d t).2 =
            ((List.range j).flatMap
              fun i : ℕ => [Ev.sent f.data (lp + 1 + (i : ℤ)), Ev.drained])
            ++ ((if j < (min (computePts s t - lp - 1) 5).toNat
                 then [Ev.sendFailed f.data (lp + 1 + (j : ℤ))] else [])
            ++ [e, Ev.drained]) := by
  rw [encode_frame_gap ok s d t f lp hf hp hlt]
  dsimp only
  obtain ⟨j, hj, hev⟩ := dupLoop_structure ok f.data
    (min (computePts s t - lp - 1) 5).toNat s.sendCount (lp + 1)
  refine ⟨rfl, j,
    (if ok (dupLoop ok f.data s.sendCount (lp + 1)
        (min (computePts s t - lp - 1) 5).toNat).2
     then Ev.sent d (computePts s t) else Ev.sendFailed d (computePts s t)),
    hj, ?_, ?_⟩
  · by_cases hok : ok (dupLoop ok f.data s.sendCount (lp + 1)
        (min (computePts s t - lp - 1) 5).toNat).2 <;> simp [hok]
  · rw [hev]
    simp [List.append_assoc]

/-- C10, witness: with the first send (the first duplicate) failing, the
duplication stops at once but the incoming frame is still sent at its
target PTS 3 and replaces `last_frame`. -/
theorem C10_witness :
    (H264Encoder.encode_frame (fun n => !(n == 0))
        (⟨30, some 0, some ⟨7, some 0⟩, 0⟩ : H264State ℕ) 9 100).1.last_frame
      = some ⟨9, some (computePts
          (⟨30, some 0, some ⟨7, some 0⟩, 0⟩ : H264State ℕ) 100)⟩
    ∧ ∃ j e, j ≤ (min (computePts
          (⟨30, some 0, some ⟨7, some 0⟩, 0⟩ : H264State ℕ) 100 - 0 - 1) 5).toNat
        ∧ (e = Ev.sent 9 (computePts
              (⟨30, some 0, some ⟨7, some 0⟩, 0⟩ : H264State ℕ) 100)
           ∨ e = Ev.sendFailed 9 (computePts
              (⟨30, some 0, some ⟨7, some 0⟩, 0⟩ : H264State ℕ) 100))
        ∧ (H264Encoder.encode_frame (fun n => !(n == 0))
            (⟨30, some 0, some ⟨7, some 0⟩, 0⟩ : H264State ℕ) 9 100).2 =
            ((List.range j).flatMap
              fun i : ℕ => [Ev.sent 7 (0 + 1 + (i : ℤ)), Ev.drained])
            ++ ((if j < (min (computePts
                  (⟨30, some 0, some ⟨7, some 0⟩, 0⟩ : H264State ℕ) 100 - 0 - 1) 5).toNat
                 then [Ev.sendFailed 7 (0 + 1 + (j : ℤ))] else [])
            ++ [e, Ev.drained]) :=
  C10_send_failure (fun n => !(n == 0)) _ 9 100 ⟨7, some 0⟩ 0 rfl rfl
    (by norm_num [computePts, targetPts, rustRound])

end Cap
